import Mathlib

/-!
Verification of the text-manipulation helpers in
`ai_data_science_team/tools/regex.py`.

Strings are modelled as `List Char`.  Python's `re` operations are
embedded by deterministic backtracking matchers specialised to the two
regular expressions the module uses, reproducing the leftmost, greedy
(respectively lazy) semantics of CPython's `re` module, with the
character classes read over ASCII.  All definitions are executable and
every recursion is structural, so concrete runs reduce inside the
kernel.
-/

/-- Python whitespace class `\s` (ASCII part): space, tab, newline,
vertical tab, form feed, carriage return. -/
def isPySpace (c : Char) : Bool :=
  c = ' ' || c = '\t' || c = '\n' || c = '\x0b' || c = '\x0c' || c = '\r'

/-- Python word-character class `\w` (ASCII part): letters, digits, underscore. -/
def isWordCh (c : Char) : Bool :=
  c.isAlpha || c.isDigit || c = '_'

/-- Complement of `\n`: the class `[^\n]`, also what `.` matches without DOTALL. -/
def isNotNl (c : Char) : Bool :=
  !(c = '\n')

/-- Complement of `\s`: the class `\S`. -/
def isNotSpace (c : Char) : Bool :=
  !(isPySpace c)

/-- Whether the literal `lit` occurs in `s` starting at index `pos`. -/
def litAt (lit s : List Char) (pos : Nat) : Bool :=
  lit.isPrefixOf (s.drop pos)

/-- Length of the maximal run of characters satisfying `p` starting at `pos`. -/
def runLen (p : Char → Bool) (s : List Char) (pos : Nat) : Nat :=
  ((s.drop pos).takeWhile p).length

/-- The MULTILINE anchor `$`: end of string, or just before a newline. -/
def atEol (s : List Char) (pos : Nat) : Bool :=
  match s.drop pos with
  | [] => true
  | c :: _ => c = '\n'

/-- The MULTILINE anchor `^`: start of string, or just after a newline. -/
def atBol (s : List Char) (pos : Nat) : Bool :=
  match pos with
  | 0 => true
  | p + 1 =>
    match s.drop p with
    | c :: _ => c = '\n'
    | [] => false

/-- Greedy backtracking over a counted quantifier: try `n`, then `n-1`, …, then `0`,
returning the first success of the continuation. -/
def tryDesc : Nat → (Nat → Option α) → Option α
  | 0, f => f 0
  | n + 1, f =>
    match f (n + 1) with
    | some x => some x
    | none => tryDesc n f

/-- Greedy backtracking for a `+` quantifier: try `n` down to `1` (never `0`). -/
def tryDesc1 : Nat → (Nat → Option α) → Option α
  | 0, _ => none
  | n + 1, f =>
    match f (n + 1) with
    | some x => some x
    | none => tryDesc1 n f

/-- Helper for `tryAsc`: try `i`, `i+1`, …, `i+n` in that order. -/
def tryAscAux : Nat → Nat → (Nat → Option α) → Option α
  | 0, i, f => f i
  | n + 1, i, f =>
    match f i with
    | some x => some x
    | none => tryAscAux n (i + 1) f

/-- Lazy backtracking over a counted quantifier: try `0`, `1`, …, `n` in that order. -/
def tryAsc (n : Nat) (f : Nat → Option α) : Option α :=
  tryAscAux n 0 f

/-- The tail `\s*$` of the import pattern at position `q` (greedy, MULTILINE `$`).
Returns the end position of the whole match. -/
def tailWsEol (s : List Char) (q : Nat) : Option Nat :=
  tryDesc (runLen isPySpace s q) (fun w =>
    if atEol s (q + w) then some (q + w) else none)

/-- First alternative `import\s+[^\n]+` of the captured group of
`^\s*(import\s+[^\n]+|from\s+\S+\s+import\s+[^\n]+)\s*$`, followed by the
tail `\s*$`.  Anchored at `g0`; returns `(group end, match end)`. -/
def altImportBody (s : List Char) (g0 : Nat) : Option (Nat × Nat) :=
  if litAt ("import".data) s g0 then
    tryDesc1 (runLen isPySpace s (g0 + 6)) (fun k =>
      tryDesc1 (runLen isNotNl s (g0 + 6 + k)) (fun m =>
        match tailWsEol s (g0 + 6 + k + m) with
        | some e => some (g0 + 6 + k + m, e)
        | none => none))
  else none

/-- Second alternative `from\s+\S+\s+import\s+[^\n]+` of the captured group,
followed by the tail `\s*$`.  Anchored at `g0`; returns `(group end, match end)`. -/
def altFromBody (s : List Char) (g0 : Nat) : Option (Nat × Nat) :=
  if litAt ("from".data) s g0 then
    tryDesc1 (runLen isPySpace s (g0 + 4)) (fun k1 =>
      tryDesc1 (runLen isNotSpace s (g0 + 4 + k1)) (fun k2 =>
        tryDesc1 (runLen isPySpace s (g0 + 4 + k1 + k2)) (fun k3 =>
          if litAt ("import".data) s (g0 + 4 + k1 + k2 + k3) then
            tryDesc1 (runLen isPySpace s (g0 + 4 + k1 + k2 + k3 + 6)) (fun k4 =>
              tryDesc1 (runLen isNotNl s (g0 + 4 + k1 + k2 + k3 + 6 + k4)) (fun m =>
                match tailWsEol s (g0 + 4 + k1 + k2 + k3 + 6 + k4 + m) with
                | some e => some (g0 + 4 + k1 + k2 + k3 + 6 + k4 + m, e)
                | none => none))
          else none)))
  else none

/-- A span of the import-statement pattern inside the scanned text:
match start, start and end of capture group 1, match end. -/
structure MatchSpan where
  mstart : Nat
  gstart : Nat
  gend : Nat
  mend : Nat
deriving DecidableEq, Repr

/-- Attempt of the whole pattern
`^\s*(import\s+[^\n]+|from\s+\S+\s+import\s+[^\n]+)\s*$` (MULTILINE) at
position `p`: anchor `^`, greedy leading `\s*`, then the two group
alternatives in order, each continued by `\s*$`. -/
def matchImportAt (s : List Char) (p : Nat) : Option MatchSpan :=
  if atBol s p then
    tryDesc (runLen isPySpace s p) (fun l =>
      match altImportBody s (p + l) with
      | some ge => some ⟨p, p + l, ge.1, ge.2⟩
      | none =>
        match altFromBody s (p + l) with
        | some ge => some ⟨p, p + l, ge.1, ge.2⟩
        | none => none)
  else none

/-- Scan of `re.finditer`: try every position left to right, skip past each
match (all matches here are nonempty, so the scan advances). -/
def scanImportsAux (s : List Char) : Nat → Nat → List MatchSpan
  | 0, _ => []
  | fuel + 1, pos =>
    if pos > s.length then []
    else
      match matchImportAt s pos with
      | some r => r :: scanImportsAux s fuel r.mend
      | none => scanImportsAux s fuel (pos + 1)

/-- All non-overlapping matches of the import-statement pattern, left to right:
the matches found by `re.findall` / removed by `re.sub`. -/
def importMatches (code : List Char) : List MatchSpan :=
  scanImportsAux code (code.length + 1) 0

/-- The substring `s[i:j]` (Python slice). -/
def sliceStr (s : List Char) (i j : Nat) : List Char :=
  (s.take j).drop i

/-- `re.findall(import_pattern, code_text, re.MULTILINE)`: the capture-group
text of each match, in order. -/
def collectedImports (code : List Char) : List (List Char) :=
  (importMatches code).map (fun r => sliceStr code r.gstart r.gend)

/-- Replace every match span by the empty string, as
`re.sub(import_pattern, '', code_text, flags=re.MULTILINE)` does:
keep the text between consecutive match spans. -/
def removeMatchesFrom (s : List Char) (pos : Nat) : List MatchSpan → List Char
  | [] => s.drop pos
  | r :: rest => sliceStr s pos r.mstart ++ removeMatchesFrom s r.mend rest

/-- Python `str.dropWhile` on the left: leading characters satisfying `p` removed. -/
def stripLeft (s : List Char) : List Char :=
  s.dropWhile isPySpace

/-- Trailing whitespace removed. -/
def stripRight (s : List Char) : List Char :=
  (s.reverse.dropWhile isPySpace).reverse

/-- Python `str.strip()`: leading and trailing whitespace removed. -/
def pyStrip (s : List Char) : List Char :=
  stripRight (stripLeft s)

/-- The variable `code_without_imports` of `relocate_imports_inside_function`:
all import-statement matches replaced by the empty string, then `.strip()`. -/
def code_without_imports (code : List Char) : List Char :=
  pyStrip (removeMatchesFrom code 0 (importMatches code))

/-- Attempt of the function-definition pattern `(def\s+\w+\s*\(.*?\):)` at
position `p` (no flags, so `.` is `[^\n]` and `.*?` is lazy).
Returns the match end. -/
def matchDefAt (s : List Char) (p : Nat) : Option Nat :=
  if litAt ("def".data) s p then
    tryDesc1 (runLen isPySpace s (p + 3)) (fun k1 =>
      tryDesc1 (runLen isWordCh s (p + 3 + k1)) (fun k2 =>
        tryDesc (runLen isPySpace s (p + 3 + k1 + k2)) (fun k3 =>
          if litAt ("(".data) s (p + 3 + k1 + k2 + k3) then
            tryAsc (runLen isNotNl s (p + 3 + k1 + k2 + k3 + 1)) (fun m =>
              if litAt ("):".data) s (p + 3 + k1 + k2 + k3 + 1 + m) then
                some (p + 3 + k1 + k2 + k3 + 1 + m + 2)
              else none)
          else none)))
  else none

/-- Scan of `re.search(function_pattern, s)`: leftmost match, as
`(match start, match end)`. -/
def searchDefAux (s : List Char) : Nat → Nat → Option (Nat × Nat)
  | 0, _ => none
  | fuel + 1, pos =>
    if pos > s.length then none
    else
      match matchDefAt s pos with
      | some e => some (pos, e)
      | none => searchDefAux s fuel (pos + 1)

/-- `re.search` for the function-definition pattern. -/
def searchDef (s : List Char) : Option (Nat × Nat) :=
  searchDefAux s (s.length + 1) 0

/-- Python `sep.join(pieces)`. -/
def joinWith (sep : List Char) : List (List Char) → List Char
  | [] => []
  | [l] => l
  | l :: ls => l ++ sep ++ joinWith sep ls

/-- The inserted text `'\n    ' + '\n    '.join(imports)`. -/
def importsCode (imports : List (List Char)) : List Char :=
  ("\n    ".data) ++ joinWith ("\n    ".data) imports

/-- The function `relocate_imports_inside_function` of
`ai_data_science_team/tools/regex.py`: collect all full-line import
statements, remove them and strip the result, then insert the collected
ones right after the end of the first function-definition match; if no
function definition is found, return the original text. -/
def relocate_imports_inside_function (code_text : List Char) : List Char :=
  match searchDef (code_without_imports code_text) with
  | some pe =>
    (code_without_imports code_text).take pe.2
      ++ importsCode (collectedImports code_text)
      ++ (code_without_imports code_text).drop pe.2
  | none => code_text

/-- Python `str.upper()` (ASCII model). -/
def pyUpper (s : List Char) : List Char :=
  s.map Char.toUpper

/-- Python `str.lower()` (ASCII model). -/
def pyLower (s : List Char) : List Char :=
  s.map Char.toLower

/-- Python `str.replace("_", " ")`: every underscore becomes one space. -/
def pyReplaceUnderscore (s : List Char) : List Char :=
  s.map (fun c => if c = '_' then ' ' else c)

/-- The function `format_agent_name`: strip, replace underscores by spaces,
uppercase, then wrap as `---NAME----` (three hyphens before, four after). -/
def format_agent_name (agent_name : List Char) : List Char :=
  ("---".data) ++ pyUpper (pyReplaceUnderscore (pyStrip agent_name)) ++ ("----".data)

/-- Python `text.split('\n')`: list of lines, always nonempty, the empty
string splitting to `[""]`. -/
def splitNl : List Char → List (List Char)
  | [] => [[]]
  | c :: rest =>
    if c = '\n' then [] :: splitNl rest
    else
      match splitNl rest with
      | [] => [[c]]
      | l :: ls => (c :: l) :: ls

/-- Python `'\n'.join(lines)`. -/
def joinNl (ls : List (List Char)) : List Char :=
  joinWith ['\n'] ls

/-- The `for line in lines` loop of `format_recommended_steps`: keep the
first line whose stripped content equals the heading, drop every later
such line, keep all other lines; also report the final value of the
`seen_heading` flag. -/
def stepLoop (heading : List Char) (seen : Bool) :
    List (List Char) → List (List Char) × Bool
  | [] => ([], seen)
  | l :: ls =>
    if pyStrip l = heading then
      if seen then stepLoop heading true ls
      else ((l :: (stepLoop heading true ls).1, (stepLoop heading true ls).2))
    else ((l :: (stepLoop heading seen ls).1, (stepLoop heading seen ls).2))

/-- The `lines` value of `format_recommended_steps` after the
`while lines and not lines[0].strip(): lines.pop(0)` loop: the stripped
text split at newlines, with the leading blank lines removed. -/
def recommendedLines (raw_text : List Char) : List (List Char) :=
  (splitNl (pyStrip raw_text)).dropWhile (fun l => (pyStrip l).isEmpty)

/-- The function `format_recommended_steps`: strip the text, split into
lines, pop leading blank lines, deduplicate the heading keeping its first
occurrence, prepend the heading if it was never seen, and join. -/
def format_recommended_steps (raw_text heading : List Char) : List Char :=
  joinNl (if (stepLoop heading false (recommendedLines raw_text)).2
    then (stepLoop heading false (recommendedLines raw_text)).1
    else heading :: (stepLoop heading false (recommendedLines raw_text)).1)

/-- The default heading argument `# Recommended Steps:`. -/
def defaultHeading : List Char :=
  "# Recommended Steps:".data

/-- Modelled from the spec: the Step-List Normalizer as claim C6 words it,
with no whole-text strip.  The spec says to split the text into lines,
discard only the leading blank lines, drop only duplicate heading lines
(keeping the first line whose trimmed content equals the heading), keep
every other line unchanged and in order, insert the heading as first line
when it was never seen, and join with newlines. -/
def format_recommended_steps_spec (raw_text heading : List Char) : List Char :=
  joinNl (if (stepLoop heading false ((splitNl raw_text).dropWhile (fun l => (pyStrip l).isEmpty))).2
    then (stepLoop heading false ((splitNl raw_text).dropWhile (fun l => (pyStrip l).isEmpty))).1
    else heading :: (stepLoop heading false ((splitNl raw_text).dropWhile (fun l => (pyStrip l).isEmpty))).1)

/-- The fixed disclaimer line of `add_comments_to_top`. -/
def disclaimerLine : List Char :=
  "# Disclaimer: This function was generated by AI. Please review before using.".data

/-- The function `add_comments_to_top`.  The Python code reads the wall
clock: `time_created = datetime.now().strftime('%Y-%m-%d %H:%M:%S')`; this
embedding passes that clock reading as the explicit argument
`time_created`.  The header list is joined with newlines and prepended to
the code text; its third entry carries its own trailing newline and the
fourth entry is the empty string. -/
def add_comments_to_top (code_text agent_name time_created : List Char) : List Char :=
  joinNl [disclaimerLine,
          ("# Agent Name: ".data) ++ agent_name,
          ("# Time Created: ".data) ++ time_created ++ ['\n'],
          []]
    ++ code_text

/-- A Python value stored in a report dictionary: a string, an integer or
a boolean (the spec leaves the value type open; these cases suffice to
model the generic `str(...)` coercion). -/
inductive PyVal where
  | str (s : List Char)
  | int (n : Int)
  | bool (b : Bool)
deriving DecidableEq, Repr

/-- Python `str(value)` on the modelled values. -/
def pyValStr : PyVal → List Char
  | .str s => s
  | .int n => (toString n).data
  | .bool b => if b then "True".data else "False".data

/-- Python `needle in hay` on strings: substring test. -/
def strIn (needle : List Char) : List Char → Bool
  | [] => needle.isPrefixOf []
  | c :: rest => needle.isPrefixOf (c :: rest) || strIn needle rest

/-- Python `dict.get(key, default)` over an ordered association list:
the value at the first matching key, or the default. -/
def pyGet (d : List (List Char × PyVal)) (k : List Char) (default : PyVal) : PyVal :=
  match d.find? (fun kv => decide (kv.1 = k)) with
  | some kv => kv.2
  | none => default

/-- The reserved title key `report_title`. -/
def titleKey : List Char :=
  "report_title".data

/-- The `for key, value in report_dict.items()` loop of
`get_generic_summary`: skip the title key; emit a section heading line,
then either a fenced code block (when the lowercased key contains `code`
or `function`) or the plain `str(value)`. -/
def summaryLines (code_lang : List Char) : List (List Char × PyVal) → List (List Char)
  | [] => []
  | (k, v) :: rest =>
    if k = titleKey then summaryLines code_lang rest
    else
      if strIn ("code".data) (pyLower k) || strIn ("function".data) (pyLower k) then
        ('\n' :: ("## ".data) ++ pyUpper (format_agent_name k))
          :: (("```".data) ++ code_lang ++ '\n' :: pyValStr v ++ '\n' :: ("```".data))
          :: summaryLines code_lang rest
      else
        ('\n' :: ("## ".data) ++ pyUpper (format_agent_name k))
          :: pyValStr v
          :: summaryLines code_lang rest

/-- The function `get_generic_summary`: a level-1 heading from the
`report_title` entry (default `Untitled Report`), then the loop sections,
all joined with newlines. -/
def get_generic_summary (report_dict : List (List Char × PyVal)) (code_lang : List Char) :
    List Char :=
  joinNl ((("# ".data) ++ pyValStr (pyGet report_dict titleKey (PyVal.str ("Untitled Report".data))))
    :: summaryLines code_lang report_dict)

/-! ## Theorems for the claims -/

/-- C1: for the input `"import os\ndef foo():\n    pass"`,
`relocate_imports_inside_function` returns exactly
`"def foo():\n    import os\n    pass"`: the top-level import line is
removed and reinserted, indented by four spaces, immediately after the
first function-definition line. -/
theorem relocate_example_exact :
    relocate_imports_inside_function ("import os\ndef foo():\n    pass".data)
      = ("def foo():\n    import os\n    pass".data) := by decide

/-- C2: whenever no single-line function-definition signature is found in
the text left after stripping the imports, `relocate_imports_inside_function`
returns the original input completely unchanged. -/
theorem relocate_no_function_identity (code : List Char)
    (h : searchDef (code_without_imports code) = none) :
    relocate_imports_inside_function code = code := by
  simp [relocate_imports_inside_function, h]

/-- Witness for C2 at the concrete input `"import os\nx = 1"`: the
function search fails there and the output equals the input exactly. -/
theorem relocate_no_function_identity_witness :
    searchDef (code_without_imports ("import os\nx = 1".data)) = none
      ∧ relocate_imports_inside_function ("import os\nx = 1".data)
          = ("import os\nx = 1".data) :=
  ⟨by decide, relocate_no_function_identity (("import os\nx = 1".data)) (by decide)⟩

/-- Counterexample to C3: on the single-function input
`"import os\ndef foo():\n    pass"`, applying
`relocate_imports_inside_function` twice does not give the same result as
applying it once (the second pass moves the already-relocated import
again and leaves an extra blank line behind). -/
theorem relocate_twice_ne_once :
    relocate_imports_inside_function
        (relocate_imports_inside_function ("import os\ndef foo():\n    pass".data))
      ≠ relocate_imports_inside_function ("import os\ndef foo():\n    pass".data) := by
  decide

/-- C3 as amended: the second application re-extracts the indented import
and reinserts it, leaving an extra blank line, so for the input
`"import os\ndef foo():\n    pass"` the twice-applied result is
`"def foo():\n    import os\n\n    pass"` while the once-applied result is
`"def foo():\n    import os\n    pass"`. -/
theorem relocate_twice_extra_blank_line :
    relocate_imports_inside_function
        (relocate_imports_inside_function ("import os\ndef foo():\n    pass".data))
      = ("def foo():\n    import os\n\n    pass".data)
    ∧ relocate_imports_inside_function ("import os\ndef foo():\n    pass".data)
      = ("def foo():\n    import os\n    pass".data) := by
  exact ⟨by decide, by decide⟩

/-- C4: `format_agent_name` always returns exactly `---` followed by the
trimmed, underscore-to-space, uppercased input followed by `----`, and on
`"data_wrangler"` it returns `"---DATA WRANGLER----"`. -/
theorem format_agent_name_contract (s : List Char) :
    format_agent_name s
        = ("---".data) ++ pyUpper (pyReplaceUnderscore (pyStrip s)) ++ ("----".data)
      ∧ format_agent_name ("data_wrangler".data) = ("---DATA WRANGLER----".data) :=
  ⟨rfl, by decide⟩

/-- Counterexample to C6: `format_recommended_steps` strips the whole
text first, so on the input `"a\n"` it drops the trailing blank line,
while the spec-worded transform keeps it. -/
theorem format_recommended_steps_not_frame :
    format_recommended_steps ("a\n".data) defaultHeading
      ≠ format_recommended_steps_spec ("a\n".data) defaultHeading := by decide

/-- C6 as amended: `format_recommended_steps` equals the spec-worded
line-by-line transform applied to the whitespace-stripped text — so
leading blank lines, duplicate headings, and additionally the leading and
trailing whitespace of the whole text (hence trailing blank lines) are
removed, and every other line is kept unchanged and in order. -/
theorem format_recommended_steps_eq_spec_on_strip (raw heading : List Char) :
    format_recommended_steps raw heading
      = format_recommended_steps_spec (pyStrip raw) heading :=
  rfl

/-- C7: `add_comments_to_top` returns exactly the disclaimer line, the
agent-name line, the timestamp line, one blank line, then the original
code verbatim; in particular the output starts with the disclaimer line
and contains the agent-name line. -/
theorem add_comments_to_top_contract (code agent ts : List Char) :
    add_comments_to_top code agent ts
        = disclaimerLine ++ '\n' :: (("# Agent Name: ".data) ++ agent)
            ++ '\n' :: (("# Time Created: ".data) ++ ts) ++ '\n' :: '\n' :: code
      ∧ (∃ r, add_comments_to_top code agent ts = (disclaimerLine ++ ['\n']) ++ r)
      ∧ (∃ u, add_comments_to_top code agent ts = u ++ code)
      ∧ (∃ u v, add_comments_to_top code agent ts
          = u ++ ('\n' :: (("# Agent Name: ".data) ++ agent) ++ '\n' :: v)) := by
  have h : add_comments_to_top code agent ts
      = disclaimerLine ++ '\n' :: (("# Agent Name: ".data) ++ agent)
          ++ '\n' :: (("# Time Created: ".data) ++ ts) ++ '\n' :: '\n' :: code := by
    simp [add_comments_to_top, joinNl, joinWith, List.append_assoc]
  refine ⟨h,
    ⟨("# Agent Name: ".data) ++ agent ++ '\n' :: (("# Time Created: ".data) ++ ts)
        ++ '\n' :: '\n' :: code, ?_⟩,
    ⟨disclaimerLine ++ '\n' :: (("# Agent Name: ".data) ++ agent)
        ++ '\n' :: (("# Time Created: ".data) ++ ts) ++ '\n' :: ['\n'], ?_⟩,
    ⟨disclaimerLine, ("# Time Created: ".data) ++ ts ++ '\n' :: '\n' :: code, ?_⟩⟩
  · rw [h]; simp [List.append_assoc]
  · rw [h]; simp [List.append_assoc]
  · rw [h]; simp [List.append_assoc]

/-- C10 as amended: when the input contains no full-line import statement
but a function-definition signature is found in the stripped text,
`relocate_imports_inside_function` returns the stripped input with the
five characters `"\n    "` (a newline and a line of four spaces) inserted
immediately after the end of the matched signature, because the empty
list of collected statements is still joined and inserted.  (This is not always different
from the input: see the counterexample theorem.) -/
theorem relocate_no_imports_inserts_blank (code : List Char) (st e : Nat)
    (h1 : importMatches code = [])
    (h2 : searchDef (pyStrip code) = some (st, e)) :
    relocate_imports_inside_function code
      = (pyStrip code).take e ++ ("\n    ".data) ++ (pyStrip code).drop e := by
  have hc : code_without_imports code = pyStrip code := by
    simp [code_without_imports, h1, removeMatchesFrom]
  have himp : collectedImports code = [] := by simp [collectedImports, h1]
  simp [relocate_imports_inside_function, hc, h2, himp, importsCode, joinWith]

/-- Counterexample to C10: the input `"def f():\n    "` contains a
function-definition signature and no import statement, yet
`relocate_imports_inside_function` returns it unchanged (stripping and
reinserting `"\n    "` cancel), so the function is not always distinct
from the identity on such inputs. -/
theorem relocate_identity_fixed_point :
    importMatches ("def f():\n    ".data) = []
      ∧ (searchDef (pyStrip ("def f():\n    ".data))).isSome = true
      ∧ relocate_imports_inside_function ("def f():\n    ".data)
          = ("def f():\n    ".data) := by
  exact ⟨by decide, by decide, by decide⟩

/-- Witness for C10 at the concrete input `"def foo():\n    pass"`: there
are no imports, the signature match ends at index 10, and the output is the
input with a line of four spaces inserted after the signature. -/
theorem relocate_no_imports_inserts_blank_witness :
    relocate_imports_inside_function ("def foo():\n    pass".data)
      = (pyStrip ("def foo():\n    pass".data)).take 10 ++ ("\n    ".data)
          ++ (pyStrip ("def foo():\n    pass".data)).drop 10 :=
  relocate_no_imports_inserts_blank (("def foo():\n    pass".data)) 0 10
    (by decide) (by decide)

/-- Joining a nonempty list of lines starts with the first line. -/
theorem joinNl_cons_decomp (x : List Char) (xs : List (List Char)) :
    ∃ r, joinNl (x :: xs) = x ++ r := by
  cases xs with
  | nil => exact ⟨[], by simp [joinNl, joinWith]⟩
  | cons y t =>
    exact ⟨'\n' :: joinNl (y :: t), by simp [joinNl, joinWith, List.append_assoc]⟩

/-- Every member line of a joined list occurs inside the joined text. -/
theorem mem_joinNl_decomp {l : List Char} :
    ∀ {L : List (List Char)}, l ∈ L → ∃ u w, joinNl L = u ++ (l ++ w) := by
  intro L hmem
  induction L with
  | nil => cases hmem
  | cons x xs ih =>
    rcases List.mem_cons.mp hmem with h | h
    · subst h
      obtain ⟨r, hr⟩ := joinNl_cons_decomp l xs
      exact ⟨[], r, by simp [hr]⟩
    · obtain ⟨u, w, hu⟩ := ih h
      cases xs with
      | nil => cases h
      | cons y t =>
        refine ⟨x ++ '\n' :: u, w, ?_⟩
        simp [joinNl, joinWith] at hu ⊢
        simp [hu, List.append_assoc]

/-- The fenced code block built for a code-like key is one of the emitted
section lines. -/
theorem codeBlock_mem_summaryLines (lang k : List Char) (v : PyVal) :
    ∀ report : List (List Char × PyVal), (k, v) ∈ report → k ≠ titleKey →
      (strIn ("code".data) (pyLower k) || strIn ("function".data) (pyLower k)) = true →
      (("```".data) ++ lang ++ '\n' :: pyValStr v ++ '\n' :: ("```".data))
        ∈ summaryLines lang report := by
  intro report hmem hk hc
  induction report with
  | nil => cases hmem
  | cons kv rest ih =>
    obtain ⟨k', v'⟩ := kv
    rcases List.mem_cons.mp hmem with h | h
    · obtain ⟨hk', hv'⟩ := Prod.mk.injEq .. ▸ h.symm
      subst hk'; subst hv'
      simp [summaryLines, hk, hc]
    · have hrest := ih h
      by_cases ht : k' = titleKey
      · rw [summaryLines, if_pos ht]
        exact hrest
      · rw [summaryLines, if_neg ht]
        by_cases hcond :
          (strIn ("code".data) (pyLower k') || strIn ("function".data) (pyLower k')) = true
        · rw [if_pos hcond]
          exact List.mem_cons_of_mem _ (List.mem_cons_of_mem _ hrest)
        · rw [if_neg hcond]
          exact List.mem_cons_of_mem _ (List.mem_cons_of_mem _ hrest)

/-- C8: for every entry of the report whose key is not the title key and
whose lowercased key contains `code` or `function`, the rendered value
appears inside a fenced code block tagged with the language identifier,
and the title heading is a prefix of the whole output (so it appears
before any section). -/
theorem get_generic_summary_code_block (report : List (List Char × PyVal))
    (lang k : List Char) (v : PyVal) (hmem : (k, v) ∈ report) (hk : k ≠ titleKey)
    (hc : (strIn ("code".data) (pyLower k) || strIn ("function".data) (pyLower k)) = true) :
    (∃ u w, get_generic_summary report lang
        = u ++ ((("```".data) ++ lang ++ '\n' :: pyValStr v ++ '\n' :: ("```".data)) ++ w))
      ∧ (∃ r, get_generic_summary report lang
          = (("# ".data) ++ pyValStr (pyGet report titleKey (PyVal.str ("Untitled Report".data)))) ++ r) := by
  constructor
  · have hmem' := codeBlock_mem_summaryLines lang k v report hmem hk hc
    exact mem_joinNl_decomp (List.mem_cons_of_mem _ hmem')
  · exact joinNl_cons_decomp _ _

/-- Witness for C8 at the report `{"report_title": "X", "my_code": "print(1)"}`
with the default language `python`. -/
theorem get_generic_summary_code_block_witness :
    (∃ u w, get_generic_summary
          [(("report_title".data), PyVal.str ("X".data)),
           (("my_code".data), PyVal.str ("print(1)".data))] ("python".data)
        = u ++ ((("```".data) ++ ("python".data) ++ '\n' :: pyValStr (PyVal.str ("print(1)".data))
            ++ '\n' :: ("```".data)) ++ w))
      ∧ (∃ r, get_generic_summary
          [(("report_title".data), PyVal.str ("X".data)),
           (("my_code".data), PyVal.str ("print(1)".data))] ("python".data)
        = (("# ".data) ++ pyValStr (pyGet
            [(("report_title".data), PyVal.str ("X".data)),
             (("my_code".data), PyVal.str ("print(1)".data))] titleKey
            (PyVal.str ("Untitled Report".data)))) ++ r) :=
  get_generic_summary_code_block
    ([(("report_title".data), PyVal.str ("X".data)),
      (("my_code".data), PyVal.str ("print(1)".data))])
    (("python".data)) (("my_code".data)) (PyVal.str ("print(1)".data))
    (by decide) (by decide) (by decide)

/-- The loop of `get_generic_summary` skips every title-key entry, so the
emitted sections are exactly those of the report with the title entries
filtered out. -/
theorem summaryLines_filter (lang : List Char) :
    ∀ report : List (List Char × PyVal),
      summaryLines lang report
        = summaryLines lang (report.filter (fun kv => !(decide (kv.1 = titleKey)))) := by
  intro report
  induction report with
  | nil => rfl
  | cons kv rest ih =>
    obtain ⟨k, v⟩ := kv
    by_cases h : k = titleKey
    · simp [summaryLines, h, List.filter_cons, ih]
    · simp [summaryLines, h, List.filter_cons, ih]

/-- C9: the summary is the level-1 title heading (value of the reserved
key, or `Untitled Report` when absent, coerced to text) followed by the
sections of the non-title entries only, and when the title key is absent
the output starts with `# Untitled Report`. -/
theorem get_generic_summary_title (report : List (List Char × PyVal)) (lang : List Char) :
    get_generic_summary report lang
        = joinNl ((("# ".data)
            ++ pyValStr (pyGet report titleKey (PyVal.str ("Untitled Report".data))))
            :: summaryLines lang (report.filter (fun kv => !(decide (kv.1 = titleKey)))))
      ∧ (report.find? (fun kv => decide (kv.1 = titleKey)) = none →
          ∃ r, get_generic_summary report lang = ("# Untitled Report".data) ++ r) := by
  constructor
  · rw [get_generic_summary, ← summaryLines_filter]
  · intro h
    have hget : pyGet report titleKey (PyVal.str ("Untitled Report".data))
        = PyVal.str ("Untitled Report".data) := by
      simp [pyGet, h]
    obtain ⟨r, hr⟩ := joinNl_cons_decomp
      (("# ".data) ++ pyValStr (pyGet report titleKey (PyVal.str ("Untitled Report".data))))
      (summaryLines lang report)
    refine ⟨r, ?_⟩
    rw [get_generic_summary, hr, hget]
    exact congrArg (fun x => x ++ r) (by decide)

/-- Witness for C9 at the title-less report `{"summary": 5}`: the output
starts with the default title heading, with the integer value coerced to
text in its section. -/
theorem get_generic_summary_title_witness :
    ∃ r, get_generic_summary [(("summary".data), PyVal.int 5)] ("python".data)
      = ("# Untitled Report".data) ++ r :=
  (get_generic_summary_title ([(("summary".data), PyVal.int 5)]) (("python".data))).2
    (by decide)

/-- Splitting at newlines always yields at least one line. -/
theorem splitNl_ne_nil (s : List Char) : splitNl s ≠ [] := by
  induction s with
  | nil => simp [splitNl]
  | cons c t ih =>
    by_cases h : c = '\n'
    · simp [splitNl, h]
    · simp only [splitNl, h, if_false]
      cases hsp : splitNl t with
      | nil => exact absurd hsp ih
      | cons l ls => simp

/-- Lines produced by splitting at newlines contain no newline. -/
theorem not_nl_mem_of_mem_splitNl {s l : List Char} (hmem : l ∈ splitNl s) :
    '\n' ∉ l := by
  induction s generalizing l with
  | nil =>
    simp [splitNl] at hmem
    subst hmem; simp
  | cons c t ih =>
    by_cases h : c = '\n'
    · rw [splitNl, if_pos h] at hmem
      rcases List.mem_cons.mp hmem with h' | h'
      · subst h'; simp
      · exact ih h'
    · rw [splitNl, if_neg h] at hmem
      cases hsp : splitNl t with
      | nil => exact absurd hsp (splitNl_ne_nil t)
      | cons l0 ls =>
        rw [hsp] at hmem
        rcases List.mem_cons.mp hmem with h' | h'
        · subst h'
          intro hc
          rcases List.mem_cons.mp hc with h'' | h''
          · exact h h''.symm
          · exact ih (hsp ▸ List.mem_cons_self l0 ls) h''
        · exact ih (hsp ▸ List.mem_cons_of_mem l0 h')

/-- Splitting a newline-free string yields that single line. -/
theorem splitNl_eq_single {a : List Char} (h : '\n' ∉ a) : splitNl a = [a] := by
  induction a with
  | nil => rfl
  | cons c t ih =>
    simp only [List.mem_cons, not_or] at h
    have hc : ¬ (c = '\n') := fun e => h.1 e.symm
    simp [splitNl, hc, ih h.2]

/-- Splitting after a newline-free prefix followed by a newline. -/
theorem splitNl_append_nl {a : List Char} (h : '\n' ∉ a) (s : List Char) :
    splitNl (a ++ '\n' :: s) = a :: splitNl s := by
  induction a with
  | nil => simp [splitNl]
  | cons c t ih =>
    simp only [List.mem_cons, not_or] at h
    have hc : ¬ (c = '\n') := fun e => h.1 e.symm
    simp [splitNl, hc, ih h.2]

/-- Joining then splitting a nonempty list of newline-free lines is the identity. -/
theorem splitNl_joinNl {L : List (List Char)} (h : ∀ l ∈ L, '\n' ∉ l) (hne : L ≠ []) :
    splitNl (joinNl L) = L := by
  induction L with
  | nil => exact absurd rfl hne
  | cons x xs ih =>
    cases xs with
    | nil =>
      simpa [joinNl, joinWith] using splitNl_eq_single (h x (List.mem_cons_self x []))
    | cons y t =>
      have hx := h x (List.mem_cons_self x _)
      have hxs : ∀ l ∈ y :: t, '\n' ∉ l := fun l hl => h l (List.mem_cons_of_mem _ hl)
      have hj : joinNl (x :: y :: t) = x ++ '\n' :: joinNl (y :: t) := by
        simp [joinNl, joinWith, List.append_assoc]
      rw [hj, splitNl_append_nl hx, ih hxs (by simp)]

/-- Boolean test of the loop guard `line.strip() == heading`. -/
def isHeading (heading l : List Char) : Bool :=
  decide (pyStrip l = heading)

/-- The final `seen_heading` flag is whether the start flag was set or
some line strips to the heading. -/
theorem stepLoop_snd (heading : List Char) (seen : Bool) (ls : List (List Char)) :
    (stepLoop heading seen ls).2 = (seen || ls.any (isHeading heading)) := by
  induction ls generalizing seen with
  | nil => simp [stepLoop]
  | cons l t ih =>
    by_cases h : pyStrip l = heading
    · by_cases hs : seen
      · subst hs
        simp [stepLoop, h, ih, isHeading]
      · simp only [Bool.not_eq_true] at hs
        subst hs
        simp [stepLoop, h, ih, isHeading]
    · simp [stepLoop, h, ih, isHeading]

/-- Once the flag is set, no kept line strips to the heading. -/
theorem stepLoop_countP_seen (heading : List Char) (ls : List (List Char)) :
    ((stepLoop heading true ls).1).countP (isHeading heading) = 0 := by
  induction ls with
  | nil => simp [stepLoop]
  | cons l t ih =>
    by_cases h : pyStrip l = heading
    · simp [stepLoop, h, ih]
    · simp [stepLoop, h, ih, isHeading]

/-- Starting unseen, exactly one kept line strips to the heading when some
input line does, and none otherwise. -/
theorem stepLoop_countP (heading : List Char) (ls : List (List Char)) :
    ((stepLoop heading false ls).1).countP (isHeading heading)
      = if ls.any (isHeading heading) then 1 else 0 := by
  induction ls with
  | nil => simp [stepLoop]
  | cons l t ih =>
    by_cases h : pyStrip l = heading
    · simp [stepLoop, h, isHeading, stepLoop_countP_seen]
    · simp [stepLoop, h, isHeading, ih]

/-- Starting unseen, the first kept line stripping to the heading is the
first input line stripping to the heading. -/
theorem stepLoop_findFirst (heading : List Char) (ls : List (List Char)) :
    ((stepLoop heading false ls).1).find? (isHeading heading)
      = ls.find? (isHeading heading) := by
  induction ls with
  | nil => simp [stepLoop]
  | cons l t ih =>
    by_cases h : pyStrip l = heading
    · simp [stepLoop, h, isHeading]
    · simp [stepLoop, h, isHeading, ih]

/-- Every kept line of the loop is one of the input lines. -/
theorem mem_of_mem_stepLoop (heading : List Char) {l : List Char} :
    ∀ (ls : List (List Char)) (seen : Bool), l ∈ (stepLoop heading seen ls).1 → l ∈ ls := by
  intro ls
  induction ls with
  | nil => intro seen hmem; simp [stepLoop] at hmem
  | cons x t ih =>
    intro seen hmem
    by_cases h : pyStrip x = heading
    · by_cases hs : seen
      · subst hs
        rw [stepLoop, if_pos h, if_pos rfl] at hmem
        exact List.mem_cons_of_mem x (ih true hmem)
      · simp only [Bool.not_eq_true] at hs
        subst hs
        rw [stepLoop, if_pos h, if_neg (by simp)] at hmem
        rcases List.mem_cons.mp hmem with h' | h'
        · exact h' ▸ List.mem_cons_self x t
        · exact List.mem_cons_of_mem x (ih true h')
    · rw [stepLoop, if_neg h] at hmem
      rcases List.mem_cons.mp hmem with h' | h'
      · exact h' ▸ List.mem_cons_self x t
      · exact List.mem_cons_of_mem x (ih seen h')

/-- Dropping a leading whitespace character commutes with stripping. -/
theorem pyStrip_cons_of_space {c : Char} (h : isPySpace c = true) (l : List Char) :
    pyStrip (c :: l) = pyStrip l := by
  simp [pyStrip, stripLeft, List.dropWhile_cons, h]

/-- Dropping a trailing whitespace character commutes with right-stripping. -/
theorem stripRight_append_of_space {c : Char} (h : isPySpace c = true) (l : List Char) :
    stripRight (l ++ [c]) = stripRight l := by
  simp [stripRight, List.dropWhile_cons, h]

/-- Dropping a trailing whitespace character commutes with stripping. -/
theorem pyStrip_append_of_space {c : Char} (h : isPySpace c = true) (l : List Char) :
    pyStrip (l ++ [c]) = pyStrip l := by
  rw [pyStrip, pyStrip, stripLeft, stripLeft, List.dropWhile_append]
  by_cases he : (l.dropWhile isPySpace).isEmpty
  · rw [if_pos he]
    have h1 : List.dropWhile isPySpace [c] = [] := by
      simp [List.dropWhile_cons, h]
    rw [h1, List.isEmpty_iff.mp he]
  · rw [if_neg he]
    exact stripRight_append_of_space h _

/-- Right strip on a snoc: drop the last character exactly when it is whitespace. -/
theorem stripRight_snoc (c : Char) (l : List Char) :
    stripRight (l ++ [c]) = if isPySpace c then stripRight l else l ++ [c] := by
  by_cases h : isPySpace c
  · rw [if_pos h, stripRight_append_of_space h]
  · rw [if_neg h]
    simp [stripRight, List.dropWhile_cons, h]

/-- Append a chunk to the last line of a nonempty list of lines. -/
def appendLast (x : List Char) : List (List Char) → List (List Char)
  | [] => [x]
  | [l] => [l ++ x]
  | l :: ls => l :: appendLast x ls

/-- Splitting after appending a final newline adds one empty line. -/
theorem splitNl_append_newline (t : List Char) :
    splitNl (t ++ ['\n']) = splitNl t ++ [[]] := by
  induction t with
  | nil => rfl
  | cons c t' ih =>
    by_cases h : c = '\n'
    · subst h
      simp [splitNl, ih]
    · cases hsp : splitNl t' with
      | nil => exact absurd hsp (splitNl_ne_nil t')
      | cons l0 ls0 =>
        rw [hsp] at ih
        simp [splitNl, h, ih, hsp]

/-- Splitting after appending a final non-newline character extends the
last line. -/
theorem splitNl_append_char {c : Char} (h : ¬ c = '\n') (t : List Char) :
    splitNl (t ++ [c]) = appendLast [c] (splitNl t) := by
  induction t with
  | nil => simp [splitNl, appendLast, h]
  | cons c' t' ih =>
    by_cases h' : c' = '\n'
    · subst h'
      cases hsp : splitNl t' with
      | nil => exact absurd hsp (splitNl_ne_nil t')
      | cons l0 ls0 =>
        rw [hsp] at ih
        simp [splitNl, ih, hsp, appendLast]
    · cases hsp : splitNl t' with
      | nil => exact absurd hsp (splitNl_ne_nil t')
      | cons l0 ls0 =>
        rw [hsp] at ih
        cases ls0 with
        | nil => simp [splitNl, h', ih, hsp, appendLast]
        | cons y ys => simp [splitNl, h', ih, hsp, appendLast]

/-- The stripped lines of a text, with blank lines removed: the data the
heading bookkeeping of `format_recommended_steps` depends on. -/
def lineTrims (s : List Char) : List (List Char) :=
  ((splitNl s).map pyStrip).filter (fun l => !l.isEmpty)

/-- Appending trailing whitespace to the last line does not change the
stripped lines. -/
theorem map_pyStrip_appendLast_ws {c : Char} (h : isPySpace c = true) :
    ∀ L : List (List Char), L ≠ [] →
      (appendLast [c] L).map pyStrip = L.map pyStrip := by
  intro L
  induction L with
  | nil => intro h'; exact absurd rfl h'
  | cons l ls ih =>
    intro _
    cases ls with
    | nil => simp [appendLast, pyStrip_append_of_space h]
    | cons y ys =>
      simp only [appendLast, List.map_cons, List.cons.injEq, true_and]
      exact ih (by simp)

/-- A trailing whitespace character does not change the nonblank stripped lines. -/
theorem lineTrims_append_ws {c : Char} (h : isPySpace c = true) (t : List Char) :
    lineTrims (t ++ [c]) = lineTrims t := by
  by_cases hn : c = '\n'
  · subst hn
    rw [lineTrims, lineTrims, splitNl_append_newline]
    simp [List.filter_append, pyStrip, stripLeft, stripRight]
  · rw [lineTrims, lineTrims, splitNl_append_char hn,
      map_pyStrip_appendLast_ws h _ (splitNl_ne_nil t)]

/-- Right-stripping the text does not change the nonblank stripped lines. -/
theorem lineTrims_stripRight (s : List Char) :
    lineTrims (stripRight s) = lineTrims s := by
  induction s using List.reverseRecOn with
  | nil => rfl
  | append_singleton t c ih =>
    rw [stripRight_snoc]
    by_cases h : isPySpace c
    · rw [if_pos h, ih, lineTrims_append_ws h]
    · rw [if_neg h]

/-- A leading newline contributes only a blank stripped line. -/
theorem lineTrims_cons_nl (t : List Char) :
    lineTrims ('\n' :: t) = lineTrims t := by
  simp [lineTrims, splitNl, pyStrip, stripLeft, stripRight]

/-- A leading non-newline whitespace character does not change the
nonblank stripped lines. -/
theorem lineTrims_cons_ws {c : Char} (h : isPySpace c = true) (hn : ¬ c = '\n')
    (t : List Char) : lineTrims (c :: t) = lineTrims t := by
  cases hsp : splitNl t with
  | nil => exact absurd hsp (splitNl_ne_nil t)
  | cons l0 ls0 =>
    rw [lineTrims, lineTrims]
    simp [splitNl, hn, hsp, pyStrip_cons_of_space h]

/-- Left-stripping the text does not change the nonblank stripped lines. -/
theorem lineTrims_stripLeft (s : List Char) :
    lineTrims (stripLeft s) = lineTrims s := by
  induction s with
  | nil => rfl
  | cons c t ih =>
    by_cases h : isPySpace c
    · have hsl : stripLeft (c :: t) = stripLeft t := by
        simp [stripLeft, List.dropWhile_cons, h]
      by_cases hn : c = '\n'
      · subst hn
        rw [hsl, ih, lineTrims_cons_nl]
      · rw [hsl, ih, lineTrims_cons_ws h hn]
    · simp [stripLeft, List.dropWhile_cons, h]

/-- Stripping the whole text does not change the nonblank stripped lines. -/
theorem lineTrims_pyStrip (s : List Char) :
    lineTrims (pyStrip s) = lineTrims s := by
  rw [pyStrip, lineTrims_stripRight, lineTrims_stripLeft]

/-- A nonempty heading occurs among the stripped lines of a text exactly
when some split line strips to it. -/
theorem heading_mem_lineTrims_iff {heading : List Char} (hne : heading ≠ [])
    (s : List Char) :
    heading ∈ lineTrims s ↔ ∃ l ∈ splitNl s, pyStrip l = heading := by
  have he : heading.isEmpty = false := by
    cases heading with
    | nil => exact absurd rfl hne
    | cons _ _ => rfl
  simp [lineTrims, List.mem_filter, List.mem_map, he]

/-- For a nonempty heading, some line of the stripped text strips to the
heading exactly when some line of the original text does. -/
theorem exists_trim_iff_strip {heading : List Char} (hne : heading ≠ [])
    (raw : List Char) :
    (∃ l ∈ splitNl (pyStrip raw), pyStrip l = heading)
      ↔ (∃ l ∈ splitNl raw, pyStrip l = heading) := by
  rw [← heading_mem_lineTrims_iff hne, ← heading_mem_lineTrims_iff hne,
    lineTrims_pyStrip]

/-- An element not satisfying the predicate survives `dropWhile`. -/
theorem mem_dropWhile_of_neg {α : Type} (p : α → Bool) {l : α} (hp : p l = false) :
    ∀ {ls : List α}, l ∈ ls → l ∈ ls.dropWhile p := by
  intro ls
  induction ls with
  | nil => intro h; cases h
  | cons x t ih =>
    intro hmem
    rw [List.dropWhile_cons]
    rcases List.mem_cons.mp hmem with h | h
    · subst h
      rw [hp]
      simp
    · by_cases hx : p x
      · rw [if_pos hx]
        exact ih h
      · rw [if_neg hx]
        exact List.mem_cons_of_mem x h

/-- For a nonempty heading, the processed line list of
`format_recommended_steps` contains a line stripping to the heading
exactly when the raw input does. -/
theorem any_recommendedLines_iff {heading : List Char} (hne : heading ≠ [])
    (raw : List Char) :
    (recommendedLines raw).any (isHeading heading) = true
      ↔ ∃ l ∈ splitNl raw, pyStrip l = heading := by
  rw [← exists_trim_iff_strip hne raw]
  constructor
  · intro h
    obtain ⟨l, hl, hp⟩ := List.any_eq_true.mp h
    exact ⟨l, List.dropWhile_subset _ hl, of_decide_eq_true hp⟩
  · rintro ⟨l, hl, hp⟩
    apply List.any_eq_true.mpr
    refine ⟨l, ?_, by simp [isHeading, hp]⟩
    have hpe : ((fun x => (pyStrip x).isEmpty) l) = false := by
      show (pyStrip l).isEmpty = false
      rw [hp]
      exact (List.isEmpty_eq_false).mpr hne
    exact mem_dropWhile_of_neg (fun x => (pyStrip x).isEmpty) hpe hl

/-- C5 as amended: for every text and every heading that is nonempty,
newline-free, and equal to its own strip (the default heading qualifies),
exactly one output line of `format_recommended_steps` strips to the
heading; when no input line strips to the heading, the heading itself is
the first output line; and when some processed line strips to the
heading, the first such line is kept verbatim as the first heading line
of the output. -/
theorem format_recommended_steps_heading_once (raw heading : List Char)
    (h1 : pyStrip heading = heading) (h2 : heading ≠ []) (h3 : '\n' ∉ heading) :
    (splitNl (format_recommended_steps raw heading)).countP (isHeading heading) = 1
    ∧ ((∀ l ∈ splitNl raw, pyStrip l ≠ heading) →
        (splitNl (format_recommended_steps raw heading)).head? = some heading)
    ∧ (∀ l0, (recommendedLines raw).find? (isHeading heading) = some l0 →
        (splitNl (format_recommended_steps raw heading)).find? (isHeading heading)
          = some l0) := by
  have hsnd := stepLoop_snd heading false (recommendedLines raw)
  simp only [Bool.false_or] at hsnd
  have hnoNl : ∀ l ∈ (stepLoop heading false (recommendedLines raw)).1, '\n' ∉ l :=
    fun l hl => not_nl_mem_of_mem_splitNl
      (List.dropWhile_subset _ (mem_of_mem_stepLoop heading _ false hl))
  have hcount := stepLoop_countP heading (recommendedLines raw)
  cases hb : (recommendedLines raw).any (isHeading heading) with
  | true =>
    have hfmt : format_recommended_steps raw heading
        = joinNl ((stepLoop heading false (recommendedLines raw)).1) := by
      rw [format_recommended_steps, hsnd, hb]
      simp
    rw [hb, if_pos rfl] at hcount
    have hne1 : (stepLoop heading false (recommendedLines raw)).1 ≠ [] := by
      intro h0
      rw [h0] at hcount
      simp at hcount
    have hsplit : splitNl (format_recommended_steps raw heading)
        = (stepLoop heading false (recommendedLines raw)).1 := by
      rw [hfmt]
      exact splitNl_joinNl hnoNl hne1
    refine ⟨by rw [hsplit, hcount], ?_, ?_⟩
    · intro hnone
      exfalso
      obtain ⟨l', hl', hp'⟩ := (any_recommendedLines_iff h2 raw).mp hb
      exact hnone l' hl' hp'
    · intro l0 hfind
      rw [hsplit, stepLoop_findFirst]
      exact hfind
  | false =>
    have hfmt : format_recommended_steps raw heading
        = joinNl (heading :: (stepLoop heading false (recommendedLines raw)).1) := by
      rw [format_recommended_steps, hsnd, hb]
      simp
    rw [hb, if_neg (by simp)] at hcount
    have hsplit : splitNl (format_recommended_steps raw heading)
        = heading :: (stepLoop heading false (recommendedLines raw)).1 := by
      rw [hfmt]
      refine splitNl_joinNl ?_ (by simp)
      intro l hl
      rcases List.mem_cons.mp hl with h | h
      · exact h ▸ h3
      · exact hnoNl l h
    refine ⟨?_, ?_, ?_⟩
    · rw [hsplit, List.countP_cons_of_pos _ _ (by simp [isHeading, h1]), hcount]
    · intro _
      rw [hsplit]
      rfl
    · intro l0 hfind
      exfalso
      have hmem := List.mem_of_find?_eq_some hfind
      have hp := List.find?_some hfind
      have hb' : (recommendedLines raw).any (isHeading heading) = true :=
        List.any_eq_true.mpr ⟨l0, hmem, hp⟩
      exact absurd hb' (by simp [hb])

/-- Counterexample to C5: for the heading `" H"` (carrying leading
whitespace) and the input `"x"`, no output line of
`format_recommended_steps` strips to the heading at all — the inserted
heading does not strip to itself. -/
theorem format_recommended_steps_whitespace_heading :
    (splitNl (format_recommended_steps ("x".data) (" H".data))).countP
        (isHeading (" H".data)) = 0 := by decide

/-- Witness for C5 as amended, at the default heading and an input that
contains the heading once: exactly one output line strips to it. -/
theorem format_recommended_steps_heading_once_witness :
    (splitNl (format_recommended_steps ("a\n# Recommended Steps:\nb".data)
        defaultHeading)).countP (isHeading defaultHeading) = 1 :=
  (format_recommended_steps_heading_once (("a\n# Recommended Steps:\nb".data))
    defaultHeading (by decide) (by decide) (by decide)).1
